import Mathlib

/-!
Shallow embedding of the page-layout and viewport-mapping core of
`pdf_cutter.py` (classes `PageCanvas` and `PdfViewerWidget`).

Coordinates are unbounded integers (Python ints).  Qt geometry types are
embedded with Qt 6 semantics:

* `QRect` stores its two corners `(x1, y1)`/`(x2, y2)`; a rectangle built
  from `(x, y, w, h)` has `x2 = x + w - 1`, `y2 = y + h - 1`.
* `QRect.normalized` follows Qt 6 (size-preserving swap).
* `QRect.intersected` follows Qt's `operator&` (null check, per-axis
  span computation, empty on disjointness).

PyQt detail relevant to the selection code: PyQt gives Qt value classes
that have an `isNull()` method a `__bool__` of `not isNull()`, so
`QPoint(0, 0)` is falsy in a Python boolean context.  The canvas code
tests `if self._sel_origin and self._sel_current:` (truthiness), which
we embed via `QPoint.truthy`.
-/

/-- A rendered page bitmap: pixel width and height (`QPixmap.width/height`,
both non-negative). -/
structure Pixmap where
  w : Nat
  h : Nat
deriving DecidableEq, Repr

/-- `QPoint`: a pair of integer coordinates. -/
structure QPoint where
  x : Int
  y : Int
deriving DecidableEq, Repr

/-- PyQt truthiness of a `QPoint`: falsy exactly when `isNull()`, i.e. when
both coordinates are zero. -/
def QPoint.truthy (p : QPoint) : Bool :=
  !(p.x == 0 && p.y == 0)

/-- `QRect`, stored as its corner coordinates, exactly as Qt does. -/
structure QRect where
  x1 : Int
  y1 : Int
  x2 : Int
  y2 : Int
deriving DecidableEq, Repr

/-- The default-constructed `QRect()`: `x1 = 0, y1 = 0, x2 = -1, y2 = -1`. -/
def QRect.nullRect : QRect := ⟨0, 0, -1, -1⟩

/-- The `QRect(x, y, w, h)` constructor. -/
def QRect.mk4 (x y w h : Int) : QRect := ⟨x, y, x + w - 1, y + h - 1⟩

/-- The `QRect(topLeft, bottomRight)` constructor. -/
def QRect.fromPoints (p q : QPoint) : QRect := ⟨p.x, p.y, q.x, q.y⟩

def QRect.x (r : QRect) : Int := r.x1
def QRect.y (r : QRect) : Int := r.y1
def QRect.width (r : QRect) : Int := r.x2 - r.x1 + 1
def QRect.height (r : QRect) : Int := r.y2 - r.y1 + 1
def QRect.right (r : QRect) : Int := r.x2
def QRect.bottom (r : QRect) : Int := r.y2

/-- `QRect.isNull()`: both width and height are zero. -/
def QRect.isNull (r : QRect) : Bool :=
  r.x2 == r.x1 - 1 && r.y2 == r.y1 - 1

/-- `QRect.isEmpty()`: width or height not positive. -/
def QRect.isEmpty (r : QRect) : Bool :=
  r.x1 > r.x2 || r.y1 > r.y2

/-- Qt 6 `QRect::normalized()`: swaps a negative-extent axis while keeping
the magnitude of the size. -/
def QRect.normalized (r : QRect) : QRect :=
  let xs := if r.x2 < r.x1 then (r.x2 + 1, r.x1 - 1) else (r.x1, r.x2)
  let ys := if r.y2 < r.y1 then (r.y2 + 1, r.y1 - 1) else (r.y1, r.y2)
  ⟨xs.1, ys.1, xs.2, ys.2⟩

/-- Qt `QRect::operator&` (`intersected`): null operands give a null result;
each operand is reduced to its x/y spans; disjoint spans give a null result;
otherwise the component-wise max/min of the spans. -/
def QRect.intersected (r s : QRect) : QRect :=
  if r.isNull || s.isNull then QRect.nullRect
  else
    let l1 := if r.x2 - r.x1 + 1 < 0 then r.x2 else r.x1
    let r1 := if r.x2 - r.x1 + 1 < 0 then r.x1 else r.x2
    let l2 := if s.x2 - s.x1 + 1 < 0 then s.x2 else s.x1
    let r2 := if s.x2 - s.x1 + 1 < 0 then s.x1 else s.x2
    if l1 > r2 || l2 > r1 then QRect.nullRect
    else
      let t1 := if r.y2 - r.y1 + 1 < 0 then r.y2 else r.y1
      let b1 := if r.y2 - r.y1 + 1 < 0 then r.y1 else r.y2
      let t2 := if s.y2 - s.y1 + 1 < 0 then s.y2 else s.y1
      let b2 := if s.y2 - s.y1 + 1 < 0 then s.y1 else s.y2
      if t1 > b2 || t2 > b1 then QRect.nullRect
      else ⟨max l1 l2, max t1 t2, min r1 r2, min b1 b2⟩

/-- `PAGE_GAP = 10` from the constants block. -/
def PAGE_GAP : Nat := 10

/-- State of a `PageCanvas` widget: the page pixmaps, the derived layout
(`_page_y`, `_total_h`, `_max_w`) and the rubber-band selection endpoints
(`_sel_origin`, `_sel_current`). -/
structure PageCanvas where
  pixmaps : List Pixmap
  page_y : List Nat
  total_h : Nat
  max_w : Nat
  sel_origin : Option QPoint
  sel_current : Option QPoint
deriving DecidableEq, Repr

/-- A freshly constructed `PageCanvas` (`__init__`). -/
def PageCanvas.init : PageCanvas :=
  { pixmaps := [], page_y := [], total_h := 0, max_w := 0,
    sel_origin := none, sel_current := none }

/-- The loop body of `PageCanvas._recompute`: walks the pixmaps once with a
running `y` (started at `PAGE_GAP`) and running `max_w` (started at `0`),
returning the `_page_y` list, the final `y` and the final `max_w`. -/
def recomputeGo : List Pixmap → Nat → Nat → List Nat × Nat × Nat
  | [], y, mw => ([], y, mw)
  | pm :: rest, y, mw =>
      let r := recomputeGo rest (y + pm.h + PAGE_GAP) (max mw pm.w)
      (y :: r.1, r.2.1, r.2.2)

/-- `PageCanvas._recompute`: rebuilds `_page_y`, sets
`_total_h = max(y, 1)` and `_max_w = max(max_w + PAGE_GAP * 2, 1)`.
(`setFixedSize(_max_w, _total_h)` pins the widget size to these values,
so `self.width()` is `_max_w` afterwards.) -/
def PageCanvas.recompute (c : PageCanvas) : PageCanvas :=
  let r := recomputeGo c.pixmaps PAGE_GAP 0
  { c with page_y := r.1,
           total_h := max r.2.1 1,
           max_w := max (r.2.2 + PAGE_GAP * 2) 1 }

/-- `PageCanvas.set_pixmaps`: stores the list and recomputes the layout. -/
def PageCanvas.set_pixmaps (c : PageCanvas) (pms : List Pixmap) : PageCanvas :=
  PageCanvas.recompute { c with pixmaps := pms }

/-- `PageCanvas.sizeHint`: `(self._max_w, self._total_h)` when the pixmap
list is non-empty, otherwise the `QSize(100, 100)` placeholder. -/
def PageCanvas.sizeHint (c : PageCanvas) : Nat × Nat :=
  match c.pixmaps with
  | [] => (100, 100)
  | _ :: _ => (c.max_w, c.total_h)

/-- The widget's `self.width()` after `_recompute` ran: `setFixedSize`
pins it to `_max_w`. -/
def PageCanvas.widgetWidth (c : PageCanvas) : Nat := c.max_w

/-- `PageCanvas.page_rect`: in range, the rectangle
`QRect(max(0, (width - pm.width) // 2), _page_y[idx], pm.width, pm.height)`
(Python `//` is floor division, embedded as `Int.fdiv`); out of range, the
default `QRect()`.  List access uses `getD`; in every state produced by
`set_pixmaps` the index is in range for `_page_y` as well (see
`page_y_length`). -/
def PageCanvas.page_rect (c : PageCanvas) (idx : Int) : QRect :=
  if 0 ≤ idx ∧ idx < (c.pixmaps.length : Int) then
    let pm := c.pixmaps.getD idx.toNat ⟨0, 0⟩
    let x := max 0 (Int.fdiv ((c.widgetWidth : Int) - (pm.w : Int)) 2)
    QRect.mk4 x (c.page_y.getD idx.toNat 0 : Nat) (pm.w : Int) (pm.h : Int)
  else QRect.nullRect

/-- The countdown loop of `PageCanvas.page_at_y`:
`for i in range(len(_page_y) - 1, -1, -1): if y >= _page_y[i]: return i`,
with `return 0` after the loop.  `pageAtYGo ys y (i + 1)` tests index `i`. -/
def pageAtYGo (ys : List Nat) (y : Int) : Nat → Nat
  | 0 => 0
  | i + 1 => if (ys.getD i 0 : Int) ≤ y then i else pageAtYGo ys y i

/-- `PageCanvas.page_at_y`. -/
def PageCanvas.page_at_y (c : PageCanvas) (y : Int) : Nat :=
  pageAtYGo c.page_y y c.page_y.length

/-- `PageCanvas.mousePressEvent` for a left-button press at `p`. -/
def PageCanvas.mousePress (c : PageCanvas) (p : QPoint) : PageCanvas :=
  { c with sel_origin := some p, sel_current := some p }

/-- `PageCanvas.mouseMoveEvent` at `p` (`if self._sel_origin is not None`). -/
def PageCanvas.mouseMove (c : PageCanvas) (p : QPoint) : PageCanvas :=
  if c.sel_origin.isSome then { c with sel_current := some p } else c

/-- `PageCanvas.clear_selection`. -/
def PageCanvas.clear_selection (c : PageCanvas) : PageCanvas :=
  { c with sel_origin := none, sel_current := none }

/-- Python truthiness of an `Optional[QPoint]`: `None` is falsy, a point is
as truthy as PyQt makes it (`QPoint(0,0)` is falsy). -/
def optTruthy : Option QPoint → Bool
  | none => false
  | some p => p.truthy

/-- `PageCanvas.selection_rect`:
`if self._sel_origin and self._sel_current:` (Python truthiness!) then
`QRect(origin, current).normalized()`, else `None`. -/
def PageCanvas.selection_rect (c : PageCanvas) : Option QRect :=
  if optTruthy c.sel_origin && optTruthy c.sel_current then
    match c.sel_origin, c.sel_current with
    | some o, some p => some ((QRect.fromPoints o p).normalized)
    | _, _ => none
  else none

/-! ## Viewer-side logic (`PdfViewerWidget`) -/

/-- The active page computed by `_on_scroll`: `page_at_y` at the viewport's
vertical center `scrollOffset + viewportHeight // 2` (non-negative ints). -/
def activePage (c : PageCanvas) (vh : Nat) (v : Nat) : Nat :=
  c.page_at_y ((v + vh / 2 : Nat) : Int)

/-- One `_on_scroll` step: given the recorded `_current_page`, returns the
new recorded page and `some pg` when `page_changed.emit(pg)` fires.  Emits
nothing when the pixmap list is empty or the computed page equals the
recorded one. -/
def onScroll (c : PageCanvas) (vh : Nat) (cur : Nat) (v : Nat) :
    Nat × Option Nat :=
  if c.pixmaps.isEmpty then (cur, none)
  else
    let pg := activePage c vh v
    if pg ≠ cur then (pg, some pg) else (cur, none)

/-- The emissions produced by a sequence of scroll events, threaded through
`_on_scroll`. -/
def onScrollTrace (c : PageCanvas) (vh : Nat) : Nat → List Nat → List Nat
  | _, [] => []
  | cur, v :: vs =>
      match onScroll c vh cur v with
      | (cur', some p) => p :: onScrollTrace c vh cur' vs
      | (cur', none) => onScrollTrace c vh cur' vs

/-- A `fitz.Rect`: document-space rectangle with rational coordinates
(embedding the Python floats of the clip computation). -/
structure FitzRect where
  x0 : ℚ
  y0 : ℚ
  x1 : ℚ
  y1 : ℚ
deriving DecidableEq, Repr

/-- The clip rectangle `_try_copy_selection` passes to `get_text` for page
`i`: intersect the selection with the page rect, shift by the page rect's
origin, then divide `x`, `y`, `right()`, `bottom()` by the render scale. -/
def clipOf (c : PageCanvas) (scale : ℚ) (sel : QRect) (i : Nat) : FitzRect :=
  let pr := c.page_rect i
  let inter := sel.intersected pr
  let loc := QRect.mk4 (inter.x - pr.x) (inter.y - pr.y) inter.width inter.height
  ⟨(loc.x : ℚ) / scale, (loc.y : ℚ) / scale,
   (loc.right : ℚ) / scale, (loc.bottom : ℚ) / scale⟩

/-- Page `i` is consulted by the copy loop iff the selection's intersection
with its page rect is non-empty. -/
def eligible (c : PageCanvas) (sel : QRect) (i : Nat) : Bool :=
  !(sel.intersected (c.page_rect i)).isEmpty

/-- Python `str.strip()`: drop whitespace from both ends of the string. -/
def pyStrip (s : String) : String :=
  ⟨((s.data.dropWhile Char.isWhitespace).reverse.dropWhile
      Char.isWhitespace).reverse⟩

/-- The stripped text the extraction collaborator yields for page `i`
(`self.doc[i].get_text("text", clip=clip).strip()`), with the collaborator
abstracted as `getText`. -/
def extractedAt (c : PageCanvas) (scale : ℚ) (getText : Nat → FitzRect → String)
    (sel : QRect) (i : Nat) : String :=
  pyStrip (getText i (clipOf c scale sel i))

/-- Page `i` stops the copy loop: it is consulted and yields non-empty text. -/
def succeedsAt (c : PageCanvas) (scale : ℚ) (getText : Nat → FitzRect → String)
    (sel : QRect) (i : Nat) : Bool :=
  eligible c sel i && !(extractedAt c scale getText sel i == "")

/-- The page loop of `_try_copy_selection` over a list of page indices.
Returns the final clipboard contents and the indices on which `get_text`
was invoked, in invocation order. -/
def copyLoop (c : PageCanvas) (scale : ℚ) (getText : Nat → FitzRect → String)
    (sel : QRect) (cb : String) : List Nat → String × List Nat
  | [] => (cb, [])
  | i :: rest =>
      let pr := c.page_rect i
      let inter := sel.intersected pr
      if inter.isEmpty then copyLoop c scale getText sel cb rest
      else
        let text := extractedAt c scale getText sel i
        if text ≠ "" then (text, [i])
        else
          let r := copyLoop c scale getText sel cb rest
          (r.1, i :: r.2)

/-- `PdfViewerWidget._try_copy_selection`: guards (document loaded, a
selection exists, both sides at least 4 px), then the page loop over
`range(len(self.canvas.pixmaps))`.  Result: the clipboard contents after
the call (unchanged unless some page yields text) and the `get_text`
invocation trace. -/
def try_copy_selection (docLoaded : Bool) (c : PageCanvas) (scale : ℚ)
    (getText : Nat → FitzRect → String) (cb : String) : String × List Nat :=
  if !docLoaded then (cb, [])
  else
    match c.selection_rect with
    | none => (cb, [])
    | some sel =>
        if sel.width < 4 || sel.height < 4 then (cb, [])
        else copyLoop c scale getText sel cb (List.range c.pixmaps.length)

/-! ## Structural lemmas about the layout computation -/

theorem recomputeGo_length (pms : List Pixmap) :
    ∀ y mw, ((recomputeGo pms y mw).1).length = pms.length := by
  induction pms with
  | nil => intro y mw; rfl
  | cons pm rest ih =>
      intro y mw
      simp only [recomputeGo, List.length_cons]
      rw [ih]

theorem recomputeGo_head (pm : Pixmap) (rest : List Pixmap) (y mw : Nat) :
    (recomputeGo (pm :: rest) y mw).1.getD 0 0 = y := rfl

theorem recomputeGo_getD_succ (pms : List Pixmap) :
    ∀ y mw i, i + 1 < pms.length →
      (recomputeGo pms y mw).1.getD (i + 1) 0 =
        (recomputeGo pms y mw).1.getD i 0 + (pms.getD i ⟨0, 0⟩).h + PAGE_GAP := by
  induction pms with
  | nil => intro y mw i h; simp at h
  | cons pm rest ih =>
      intro y mw i h
      match i with
      | 0 =>
          have hrest : rest ≠ [] := by
            intro he
            simp [he] at h
          match rest, hrest with
          | pm2 :: rest2, _ =>
              simp only [recomputeGo, List.getD_cons_succ, List.getD_cons_zero]
      | j + 1 =>
          have h' : j + 1 < rest.length := by
            simpa [List.length_cons, Nat.succ_lt_succ_iff] using h
          simp only [recomputeGo, List.getD_cons_succ]
          exact ih _ _ j h'

theorem recomputeGo_mem_le (pms : List Pixmap) :
    ∀ y mw t, t ∈ (recomputeGo pms y mw).1 → y ≤ t := by
  induction pms with
  | nil => intro y mw t h; simp [recomputeGo] at h
  | cons pm rest ih =>
      intro y mw t h
      simp only [recomputeGo, List.mem_cons] at h
      cases h with
      | inl h => omega
      | inr h =>
          have := ih (y + pm.h + PAGE_GAP) (max mw pm.w) t h
          omega

theorem recomputeGo_getD_mono (pms : List Pixmap) (y mw : Nat) :
    ∀ j i, i < j → j < pms.length →
      (recomputeGo pms y mw).1.getD i 0 < (recomputeGo pms y mw).1.getD j 0 := by
  intro j
  induction j with
  | zero => intro i hij _; omega
  | succ j ihj =>
      intro i hij hjlen
      have hstep : (recomputeGo pms y mw).1.getD (j + 1) 0 =
          (recomputeGo pms y mw).1.getD j 0 + (pms.getD j ⟨0, 0⟩).h + PAGE_GAP :=
        recomputeGo_getD_succ pms y mw j hjlen
      rcases Nat.lt_succ_iff_lt_or_eq.mp hij with h | h
      · have := ihj i h (by omega)
        have hg : (0 : Nat) < PAGE_GAP := by decide
        omega
      · subst h
        have hg : (0 : Nat) < PAGE_GAP := by decide
        omega

theorem recomputeGo_final (pms : List Pixmap) :
    ∀ y mw, pms ≠ [] →
      (recomputeGo pms y mw).2.1 =
        (recomputeGo pms y mw).1.getD (pms.length - 1) 0 +
          (pms.getD (pms.length - 1) ⟨0, 0⟩).h + PAGE_GAP := by
  induction pms with
  | nil => intro y mw h; exact absurd rfl h
  | cons pm rest ih =>
      intro y mw _
      match rest with
      | [] => rfl
      | pm2 :: rest2 =>
          have h2 : (pm2 :: rest2 : List Pixmap) ≠ [] := by simp
          have := ih (y + pm.h + PAGE_GAP) (max mw pm.w) h2
          simp only [recomputeGo, List.length_cons, Nat.add_sub_cancel,
            List.getD_cons_succ]
          simpa using this

theorem recomputeGo_final_ge (pms : List Pixmap) :
    ∀ y mw, y ≤ (recomputeGo pms y mw).2.1 := by
  induction pms with
  | nil => intro y mw; simp [recomputeGo]
  | cons pm rest ih =>
      intro y mw
      have := ih (y + pm.h + PAGE_GAP) (max mw pm.w)
      simp only [recomputeGo]
      omega

theorem recomputeGo_maxw_le (pms : List Pixmap) :
    ∀ y mw, mw ≤ (recomputeGo pms y mw).2.2 := by
  induction pms with
  | nil => intro y mw; simp [recomputeGo]
  | cons pm rest ih =>
      intro y mw
      have := ih (y + pm.h + PAGE_GAP) (max mw pm.w)
      simp only [recomputeGo]
      omega

theorem recomputeGo_maxw_ge (pms : List Pixmap) :
    ∀ y mw pm, pm ∈ pms → pm.w ≤ (recomputeGo pms y mw).2.2 := by
  induction pms with
  | nil => intro y mw pm h; simp at h
  | cons pm0 rest ih =>
      intro y mw pm h
      simp only [List.mem_cons] at h
      cases h with
      | inl h =>
          subst h
          have := recomputeGo_maxw_le rest (y + pm.h + PAGE_GAP) (max mw pm.w)
          simp only [recomputeGo]
          omega
      | inr h =>
          have := ih (y + pm0.h + PAGE_GAP) (max mw pm0.w) pm h
          simpa [recomputeGo] using this

theorem recomputeGo_maxw_attained (pms : List Pixmap) :
    ∀ y mw, (recomputeGo pms y mw).2.2 = mw ∨
      ∃ pm ∈ pms, (recomputeGo pms y mw).2.2 = pm.w := by
  induction pms with
  | nil => intro y mw; left; rfl
  | cons pm0 rest ih =>
      intro y mw
      rcases ih (y + pm0.h + PAGE_GAP) (max mw pm0.w) with h | ⟨pm, hmem, h⟩
      · simp only [recomputeGo]
        rcases Nat.le_total mw pm0.w with hle | hle
        · right
          exact ⟨pm0, List.mem_cons_self _ _, by rw [h]; omega⟩
        · left
          rw [h]; omega
      · right
        exact ⟨pm, List.mem_cons_of_mem _ hmem, h⟩

/-! Facts about states produced by `set_pixmaps`. -/

theorem set_pixmaps_pixmaps (c : PageCanvas) (pms : List Pixmap) :
    (c.set_pixmaps pms).pixmaps = pms := rfl

theorem set_pixmaps_page_y (c : PageCanvas) (pms : List Pixmap) :
    (c.set_pixmaps pms).page_y = (recomputeGo pms PAGE_GAP 0).1 := rfl

theorem page_y_length (c : PageCanvas) (pms : List Pixmap) :
    (c.set_pixmaps pms).page_y.length = pms.length :=
  recomputeGo_length pms PAGE_GAP 0

/-! ## Characterization of the backward scan in `page_at_y` -/

theorem pageAtYGo_spec (ys : List Nat) (y : Int) (k : Nat) :
    (pageAtYGo ys y k = 0 ∧ ∀ i < k, ¬((ys.getD i 0 : Int) ≤ y)) ∨
    (pageAtYGo ys y k < k ∧ ((ys.getD (pageAtYGo ys y k) 0 : Int) ≤ y) ∧
      ∀ i < k, (ys.getD i 0 : Int) ≤ y → i ≤ pageAtYGo ys y k) := by
  induction k with
  | zero => left; exact ⟨rfl, by omega⟩
  | succ k ih =>
      by_cases hk : (ys.getD k 0 : Int) ≤ y
      · right
        have hval : pageAtYGo ys y (k + 1) = k := by
          simp only [pageAtYGo]
          rw [if_pos hk]
        refine ⟨by omega, by rw [hval]; exact hk, ?_⟩
        intro i hi _
        omega
      · have hval : pageAtYGo ys y (k + 1) = pageAtYGo ys y k := by
          simp only [pageAtYGo]
          rw [if_neg hk]
        rcases ih with ⟨h0, hall⟩ | ⟨hlt, hle, hmax⟩
        · left
          refine ⟨by rw [hval]; exact h0, ?_⟩
          intro i hi
          rcases Nat.lt_succ_iff_lt_or_eq.mp hi with h | h
          · exact hall i h
          · subst h; exact hk
        · right
          refine ⟨by omega, by rw [hval]; exact hle, ?_⟩
          intro i hi hy
          rcases Nat.lt_succ_iff_lt_or_eq.mp hi with h | h
          · rw [hval]; exact hmax i h hy
          · subst h; exact absurd hy hk

/-! ## Components of in-range page rectangles -/

theorem page_rect_in_range (c : PageCanvas) (i : Nat)
    (h : i < c.pixmaps.length) :
    c.page_rect i =
      QRect.mk4
        (max 0 (Int.fdiv ((c.max_w : Int) - ((c.pixmaps.getD i ⟨0, 0⟩).w : Int)) 2))
        ((c.page_y.getD i 0 : Nat) : Int)
        ((c.pixmaps.getD i ⟨0, 0⟩).w : Int)
        ((c.pixmaps.getD i ⟨0, 0⟩).h : Int) := by
  have hc : (0 : Int) ≤ (i : Int) ∧ (i : Int) < (c.pixmaps.length : Int) := by
    constructor
    · exact Int.ofNat_nonneg i
    · exact_mod_cast h
  simp only [PageCanvas.page_rect, hc, and_self, if_true, PageCanvas.widgetWidth,
    Int.toNat_ofNat]

theorem page_rect_out_of_range (c : PageCanvas) (idx : Int)
    (h : ¬(0 ≤ idx ∧ idx < (c.pixmaps.length : Int))) :
    c.page_rect idx = QRect.nullRect := by
  simp only [PageCanvas.page_rect, h, if_false]

theorem page_rect_y (c : PageCanvas) (i : Nat) (h : i < c.pixmaps.length) :
    (c.page_rect i).y = ((c.page_y.getD i 0 : Nat) : Int) := by
  rw [page_rect_in_range c i h]; rfl

theorem page_rect_height (c : PageCanvas) (i : Nat) (h : i < c.pixmaps.length) :
    (c.page_rect i).height = ((c.pixmaps.getD i ⟨0, 0⟩).h : Int) := by
  rw [page_rect_in_range c i h]
  simp [QRect.height, QRect.mk4]
  ring

theorem page_rect_width (c : PageCanvas) (i : Nat) (h : i < c.pixmaps.length) :
    (c.page_rect i).width = ((c.pixmaps.getD i ⟨0, 0⟩).w : Int) := by
  rw [page_rect_in_range c i h]
  simp [QRect.width, QRect.mk4]
  ring

theorem page_rect_x (c : PageCanvas) (i : Nat) (h : i < c.pixmaps.length) :
    (c.page_rect i).x =
      max 0 (Int.fdiv ((c.max_w : Int) - ((c.pixmaps.getD i ⟨0, 0⟩).w : Int)) 2) := by
  rw [page_rect_in_range c i h]; rfl

/-! ## Claim theorems -/

/-- C1: after `set_pixmaps`, page 0's top-Y is exactly `PAGE_GAP`, each later
page's top-Y is the previous top-Y plus the previous height plus `PAGE_GAP`,
and the `page_rect` Y-ranges are strictly increasing in index order,
non-overlapping, with consecutive pages separated by exactly `PAGE_GAP`. -/
theorem claim_C1_layout_gaps (c : PageCanvas) (pms : List Pixmap) :
    (0 < pms.length → (c.set_pixmaps pms).page_y.getD 0 0 = PAGE_GAP) ∧
    (∀ i, i + 1 < pms.length →
      (c.set_pixmaps pms).page_y.getD (i + 1) 0 =
        (c.set_pixmaps pms).page_y.getD i 0 + (pms.getD i ⟨0, 0⟩).h + PAGE_GAP) ∧
    (∀ i, i + 1 < pms.length →
      ((c.set_pixmaps pms).page_rect i).y +
          ((c.set_pixmaps pms).page_rect i).height + (PAGE_GAP : Int) =
        ((c.set_pixmaps pms).page_rect (i + 1 : Nat)).y) ∧
    (∀ i j, i < j → j < pms.length →
      ((c.set_pixmaps pms).page_rect i).y < ((c.set_pixmaps pms).page_rect j).y ∧
      ((c.set_pixmaps pms).page_rect i).y +
          ((c.set_pixmaps pms).page_rect i).height <
        ((c.set_pixmaps pms).page_rect j).y) := by
  have hpy : (c.set_pixmaps pms).page_y = (recomputeGo pms PAGE_GAP 0).1 := rfl
  have hpx : (c.set_pixmaps pms).pixmaps = pms := rfl
  refine ⟨?_, ?_, ?_, ?_⟩
  · intro h
    match pms, h with
    | pm :: rest, _ => exact recomputeGo_head pm rest PAGE_GAP 0
  · intro i h
    rw [hpy]
    exact recomputeGo_getD_succ pms PAGE_GAP 0 i h
  · intro i h
    have hi : i < (c.set_pixmaps pms).pixmaps.length := by rw [hpx]; omega
    have hi1 : (i + 1) < (c.set_pixmaps pms).pixmaps.length := by rw [hpx]; omega
    rw [page_rect_y _ i hi, page_rect_height _ i hi, page_rect_y _ (i + 1) hi1]
    have hrec := recomputeGo_getD_succ pms PAGE_GAP 0 i h
    rw [← hpy] at hrec
    rw [hpx]
    omega
  · intro i j hij hj
    have hi : i < (c.set_pixmaps pms).pixmaps.length := by rw [hpx]; omega
    have hj' : j < (c.set_pixmaps pms).pixmaps.length := by rw [hpx]; omega
    rw [page_rect_y _ i hi, page_rect_height _ i hi, page_rect_y _ j hj']
    have hmono := recomputeGo_getD_mono pms PAGE_GAP 0 j i hij hj
    have hrec := recomputeGo_getD_succ pms PAGE_GAP 0 i (by omega)
    have hgap : 0 < PAGE_GAP := by decide
    rw [← hpy] at hmono hrec
    rcases Nat.lt_or_ge (i + 1) j with hlt | hge
    · have hmono2 := recomputeGo_getD_mono pms PAGE_GAP 0 j (i + 1) hlt hj
      rw [← hpy] at hmono2
      rw [hpx]
      omega
    · have hj1 : j = i + 1 := by omega
      subst hj1
      rw [hpx]
      omega

/-- Witness for C1 at the spec's two-page scenario
`[(400, 600), (500, 600)]` with the initial canvas. -/
theorem claim_C1_witness :
    (PageCanvas.init.set_pixmaps [⟨400, 600⟩, ⟨500, 600⟩]).page_y.getD 0 0 =
        PAGE_GAP ∧
    (PageCanvas.init.set_pixmaps [⟨400, 600⟩, ⟨500, 600⟩]).page_y.getD (0 + 1) 0 =
      (PageCanvas.init.set_pixmaps [⟨400, 600⟩, ⟨500, 600⟩]).page_y.getD 0 0 +
        (([⟨400, 600⟩, ⟨500, 600⟩] : List Pixmap).getD 0 ⟨0, 0⟩).h + PAGE_GAP ∧
    ((PageCanvas.init.set_pixmaps [⟨400, 600⟩, ⟨500, 600⟩]).page_rect 0).y +
        ((PageCanvas.init.set_pixmaps [⟨400, 600⟩, ⟨500, 600⟩]).page_rect 0).height +
        (PAGE_GAP : Int) =
      ((PageCanvas.init.set_pixmaps [⟨400, 600⟩, ⟨500, 600⟩]).page_rect
        ((0 : Nat) + 1 : Nat)).y ∧
    ((PageCanvas.init.set_pixmaps [⟨400, 600⟩, ⟨500, 600⟩]).page_rect 0).y +
        ((PageCanvas.init.set_pixmaps [⟨400, 600⟩, ⟨500, 600⟩]).page_rect 0).height <
      ((PageCanvas.init.set_pixmaps [⟨400, 600⟩, ⟨500, 600⟩]).page_rect 1).y := by
  have h := claim_C1_layout_gaps PageCanvas.init [⟨400, 600⟩, ⟨500, 600⟩]
  exact ⟨h.1 (by decide), h.2.1 0 (by decide), h.2.2.1 0 (by decide),
    (h.2.2.2 0 1 (by decide) (by decide)).2⟩

/-- C2: on any layout built by `set_pixmaps`, `page_at_y y` is the greatest
page index whose top-Y is `≤ y`; it is `0` for the empty list and when `y`
lies above every page top; any `y` at or below the last page's top maps to
the last page; and a `y` equal to some page's top maps to that page. -/
theorem claim_C2_page_at_y (c : PageCanvas) (pms : List Pixmap) (y : Int) :
    (pms = [] → (c.set_pixmaps pms).page_at_y y = 0) ∧
    ((∀ i, i < pms.length →
        y < ((c.set_pixmaps pms).page_y.getD i 0 : Int)) →
      (c.set_pixmaps pms).page_at_y y = 0) ∧
    (∀ i, i < pms.length →
      ((c.set_pixmaps pms).page_y.getD i 0 : Int) ≤ y →
      (((c.set_pixmaps pms).page_y.getD ((c.set_pixmaps pms).page_at_y y) 0 : Int) ≤ y ∧
        i ≤ (c.set_pixmaps pms).page_at_y y ∧
        (c.set_pixmaps pms).page_at_y y < pms.length)) ∧
    (0 < pms.length →
      ((c.set_pixmaps pms).page_y.getD (pms.length - 1) 0 : Int) ≤ y →
      (c.set_pixmaps pms).page_at_y y = pms.length - 1) ∧
    (∀ i, i < pms.length →
      ((c.set_pixmaps pms).page_y.getD i 0 : Int) = y →
      (c.set_pixmaps pms).page_at_y y = i) := by
  have hpy : (c.set_pixmaps pms).page_y = (recomputeGo pms PAGE_GAP 0).1 := rfl
  have hlen : (c.set_pixmaps pms).page_y.length = pms.length := page_y_length c pms
  have hpa : (c.set_pixmaps pms).page_at_y y =
      pageAtYGo (c.set_pixmaps pms).page_y y pms.length := by
    rw [PageCanvas.page_at_y, hlen]
  have hspec := pageAtYGo_spec (c.set_pixmaps pms).page_y y pms.length
  have greatest : ∀ i, i < pms.length →
      ((c.set_pixmaps pms).page_y.getD i 0 : Int) ≤ y →
      (((c.set_pixmaps pms).page_y.getD ((c.set_pixmaps pms).page_at_y y) 0 : Int) ≤ y ∧
        i ≤ (c.set_pixmaps pms).page_at_y y ∧
        (c.set_pixmaps pms).page_at_y y < pms.length) := by
    intro i hi hy
    rcases hspec with ⟨_, hall⟩ | ⟨hlt, hle, hmax⟩
    · exact absurd hy (hall i hi)
    · rw [hpa]
      exact ⟨hle, hmax i hi hy, hlt⟩
  refine ⟨?_, ?_, greatest, ?_, ?_⟩
  · intro h
    subst h
    rfl
  · intro hall
    rcases hspec with ⟨h0, _⟩ | ⟨hlt, hle, _⟩
    · rw [hpa]; exact h0
    · have := hall _ hlt
      omega
  · intro hn hy
    have h := greatest (pms.length - 1) (by omega) hy
    omega
  · intro i hi heq
    have h := greatest i hi (le_of_eq heq)
    rcases Nat.lt_or_ge i ((c.set_pixmaps pms).page_at_y y) with hlt | hge
    · have hmono := recomputeGo_getD_mono pms PAGE_GAP 0
        ((c.set_pixmaps pms).page_at_y y) i hlt h.2.2
      rw [← hpy] at hmono
      omega
    · omega

/-- Witness for C2 at the spec's scenario: layout `[(400, 600), (500, 600)]`,
where `pageAtY` of the last top-Y `620` is page `1` and `y = 10` (page 0's
exact top-Y) maps to page `0`. -/
theorem claim_C2_witness :
    (PageCanvas.init.set_pixmaps [⟨400, 600⟩, ⟨500, 600⟩]).page_at_y 620 =
        ([⟨400, 600⟩, ⟨500, 600⟩] : List Pixmap).length - 1 ∧
    (PageCanvas.init.set_pixmaps [⟨400, 600⟩, ⟨500, 600⟩]).page_at_y 10 = 0 := by
  have h620 := claim_C2_page_at_y PageCanvas.init [⟨400, 600⟩, ⟨500, 600⟩] 620
  have h10 := claim_C2_page_at_y PageCanvas.init [⟨400, 600⟩, ⟨500, 600⟩] 10
  exact ⟨h620.2.2.2.1 (by decide) (by decide), h10.2.2.2.2 0 (by decide) (by decide)⟩

/-- C3: for a non-empty pixmap list, the total canvas height is the last
page's top-Y plus its height plus one trailing `PAGE_GAP`, and the canvas
width is the maximum page width plus two gap-widths (every page fits with
both gaps, and some page attains the width exactly). -/
theorem claim_C3_canvas_size (c : PageCanvas) (pms : List Pixmap)
    (h : pms ≠ []) :
    (c.set_pixmaps pms).total_h =
      (c.set_pixmaps pms).page_y.getD (pms.length - 1) 0 +
        (pms.getD (pms.length - 1) ⟨0, 0⟩).h + PAGE_GAP ∧
    (∀ pm ∈ pms, pm.w + PAGE_GAP * 2 ≤ (c.set_pixmaps pms).max_w) ∧
    (∃ pm ∈ pms, (c.set_pixmaps pms).max_w = pm.w + PAGE_GAP * 2) := by
  have hpy : (c.set_pixmaps pms).page_y = (recomputeGo pms PAGE_GAP 0).1 := rfl
  have hth : (c.set_pixmaps pms).total_h =
      max (recomputeGo pms PAGE_GAP 0).2.1 1 := rfl
  have hmw : (c.set_pixmaps pms).max_w =
      max ((recomputeGo pms PAGE_GAP 0).2.2 + PAGE_GAP * 2) 1 := rfl
  refine ⟨?_, ?_, ?_⟩
  · have hfin := recomputeGo_final pms PAGE_GAP 0 h
    have hge := recomputeGo_final_ge pms PAGE_GAP 0
    have hgap : PAGE_GAP = 10 := rfl
    rw [hth, hpy]
    omega
  · intro pm hpm
    have := recomputeGo_maxw_ge pms PAGE_GAP 0 pm hpm
    have hgap : PAGE_GAP = 10 := rfl
    rw [hmw]
    omega
  · rcases recomputeGo_maxw_attained pms PAGE_GAP 0 with h0 | ⟨pm, hpm, hw⟩
    · match pms, h with
      | pm0 :: rest, _ =>
          refine ⟨pm0, List.mem_cons_self _ _, ?_⟩
          have hle := recomputeGo_maxw_ge (pm0 :: rest) PAGE_GAP 0 pm0
            (List.mem_cons_self _ _)
          have hgap : PAGE_GAP = 10 := rfl
          rw [hmw, h0]
          rw [h0] at hle
          omega
    · refine ⟨pm, hpm, ?_⟩
      have hgap : PAGE_GAP = 10 := rfl
      rw [hmw, hw]
      omega

/-- Witness for C3 at the spec's one-page scenario `[(600, 800)]`: total
height `820` as last top-Y (`10`) plus height (`800`) plus the gap, and
width `620` attained by the single page. -/
theorem claim_C3_witness :
    (PageCanvas.init.set_pixmaps [⟨600, 800⟩]).total_h =
      (PageCanvas.init.set_pixmaps [⟨600, 800⟩]).page_y.getD
          (([⟨600, 800⟩] : List Pixmap).length - 1) 0 +
        (([⟨600, 800⟩] : List Pixmap).getD
          (([⟨600, 800⟩] : List Pixmap).length - 1) ⟨0, 0⟩).h + PAGE_GAP ∧
    (∃ pm ∈ ([⟨600, 800⟩] : List Pixmap),
      (PageCanvas.init.set_pixmaps [⟨600, 800⟩]).max_w = pm.w + PAGE_GAP * 2) := by
  have h := claim_C3_canvas_size PageCanvas.init [⟨600, 800⟩] (by decide)
  exact ⟨h.1, h.2.2⟩

/-- C5: `set_pixmaps` is idempotent — running it twice with the same list
produces exactly the same canvas state (layout entries, total size, and all
other fields) as running it once. -/
theorem claim_C5_idempotent (c : PageCanvas) (pms : List Pixmap) :
    (c.set_pixmaps pms).set_pixmaps pms = c.set_pixmaps pms := rfl

/-- C6: after `set_pixmaps []` the reported size (`sizeHint`) is the
`(100, 100)` placeholder, and `page_rect 0` is the default empty `QRect()`. -/
theorem claim_C6_empty_placeholder (c : PageCanvas) :
    (c.set_pixmaps []).sizeHint = (100, 100) ∧
    (c.set_pixmaps []).page_rect 0 = QRect.nullRect ∧
    ((c.set_pixmaps []).page_rect 0).isEmpty = true := by
  refine ⟨rfl, ?_, ?_⟩ <;>
    simp [PageCanvas.page_rect, PageCanvas.set_pixmaps, PageCanvas.recompute,
      QRect.nullRect, QRect.isEmpty]

/-- C4: for an index in `[0, pageCount)`, `page_rect` returns the rectangle
at that page's layout top-Y with the page's pixel width and height, placed
with a clamped-at-zero `x` that centers the page in the canvas width (the
left and right margins differ by at most one pixel); for any index outside
the range it returns the default empty `QRect()` (the function is total —
no error is raised). -/
theorem claim_C4_page_rect (c : PageCanvas) (pms : List Pixmap) (idx : Int) :
    ((0 ≤ idx ∧ idx < (pms.length : Int)) →
      ((c.set_pixmaps pms).page_rect idx).width =
          ((pms.getD idx.toNat ⟨0, 0⟩).w : Int) ∧
      ((c.set_pixmaps pms).page_rect idx).height =
          ((pms.getD idx.toNat ⟨0, 0⟩).h : Int) ∧
      ((c.set_pixmaps pms).page_rect idx).y =
          ((c.set_pixmaps pms).page_y.getD idx.toNat 0 : Int) ∧
      0 ≤ ((c.set_pixmaps pms).page_rect idx).x ∧
      0 ≤ ((c.set_pixmaps pms).max_w : Int) -
            ((pms.getD idx.toNat ⟨0, 0⟩).w : Int) -
            2 * ((c.set_pixmaps pms).page_rect idx).x ∧
      ((c.set_pixmaps pms).max_w : Int) -
            ((pms.getD idx.toNat ⟨0, 0⟩).w : Int) -
            2 * ((c.set_pixmaps pms).page_rect idx).x ≤ 1) ∧
    (¬(0 ≤ idx ∧ idx < (pms.length : Int)) →
      (c.set_pixmaps pms).page_rect idx = QRect.nullRect) := by
  constructor
  · rintro ⟨h0, hlt⟩
    obtain ⟨i, rfl⟩ : ∃ i : Nat, idx = (i : Int) :=
      ⟨idx.toNat, (Int.toNat_of_nonneg h0).symm⟩
    simp only [Int.toNat_ofNat]
    have hi : i < pms.length := by exact_mod_cast hlt
    have hi' : i < (c.set_pixmaps pms).pixmaps.length := hi
    have hpmmem : pms.getD i ⟨0, 0⟩ ∈ pms := by
      rw [List.getD_eq_getElem pms ⟨0, 0⟩ hi]
      exact List.getElem_mem hi
    have hWn : (pms.getD i ⟨0, 0⟩).w + PAGE_GAP * 2 ≤ (c.set_pixmaps pms).max_w := by
      have h1 := recomputeGo_maxw_ge pms PAGE_GAP 0 _ hpmmem
      have hmw : (c.set_pixmaps pms).max_w =
          max ((recomputeGo pms PAGE_GAP 0).2.2 + PAGE_GAP * 2) 1 := rfl
      have hgap : PAGE_GAP = 10 := rfl
      rw [hmw]
      omega
    have hx := page_rect_x (c.set_pixmaps pms) i hi'
    rw [set_pixmaps_pixmaps] at hx
    have hfd : Int.fdiv (((c.set_pixmaps pms).max_w : Int) -
          ((pms.getD i ⟨0, 0⟩).w : Int)) 2 =
        (((c.set_pixmaps pms).max_w : Int) - ((pms.getD i ⟨0, 0⟩).w : Int)) / 2 :=
      Int.fdiv_eq_ediv _ (by omega)
    rw [hfd] at hx
    refine ⟨page_rect_width _ i hi', page_rect_height _ i hi',
      page_rect_y _ i hi', ?_, ?_, ?_⟩ <;> rw [hx] <;> omega
  · intro h
    exact page_rect_out_of_range (c.set_pixmaps pms) idx h

/-- Witness for C4: layout `[(600, 800)]`; index `0` is in range with the
page's width, and index `5` is out of range and yields the empty rect. -/
theorem claim_C4_witness :
    ((PageCanvas.init.set_pixmaps [⟨600, 800⟩]).page_rect 0).width =
        ((([⟨600, 800⟩] : List Pixmap).getD (0 : Int).toNat ⟨0, 0⟩).w : Int) ∧
    0 ≤ ((PageCanvas.init.set_pixmaps [⟨600, 800⟩]).page_rect 0).x ∧
    (PageCanvas.init.set_pixmaps [⟨600, 800⟩]).page_rect 5 = QRect.nullRect := by
  have h0 := claim_C4_page_rect PageCanvas.init [⟨600, 800⟩] 0
  have h5 := claim_C4_page_rect PageCanvas.init [⟨600, 800⟩] 5
  exact ⟨(h0.1 (by decide)).1, (h0.1 (by decide)).2.2.2.1, h5.2 (by decide)⟩

/-! ## Scroll-event dedup (`_on_scroll`) -/

theorem onScrollTrace_destutter (c : PageCanvas) (vh : Nat)
    (hne : c.pixmaps.isEmpty = false) :
    ∀ (evs : List Nat) (cur : Nat),
      cur :: onScrollTrace c vh cur evs =
        (evs.map (activePage c vh)).destutter' (· ≠ ·) cur := by
  intro evs
  induction evs with
  | nil => intro cur; simp [onScrollTrace]
  | cons v vs ih =>
      intro cur
      rcases eq_or_ne (activePage c vh v) cur with he | hne2
      · have h1 : onScroll c vh cur v = (cur, none) := by
          simp [onScroll, hne, he]
        have h2 : onScrollTrace c vh cur (v :: vs) = onScrollTrace c vh cur vs := by
          simp only [onScrollTrace, h1]
        have hr : ¬(cur ≠ cur) := by simp
        rw [h2, List.map_cons, he, List.destutter'_cons, if_neg hr]
        exact ih cur
      · have h1 : onScroll c vh cur v =
            (activePage c vh v, some (activePage c vh v)) := by
          simp [onScroll, hne, hne2]
        have h2 : onScrollTrace c vh cur (v :: vs) =
            activePage c vh v :: onScrollTrace c vh (activePage c vh v) vs := by
          simp only [onScrollTrace, h1]
        have hr : cur ≠ activePage c vh v := Ne.symm hne2
        rw [h2, List.map_cons, List.destutter'_cons, if_pos hr]
        rw [ih (activePage c vh v)]

/-- C7: over any sequence of scroll events, `_on_scroll` emits `page_changed`
exactly once per distinct change of the active page — the recorded page
followed by the emitted pages is the consecutive-dedup (`destutter'` under
`≠`) of the per-event active pages — a single event emits nothing iff the
canvas is empty or its computed active page equals the recorded one, and
consecutively emitted page indices are always distinct. -/
theorem claim_C7_scroll_dedup (c : PageCanvas) (vh : Nat) (cur : Nat)
    (evs : List Nat) :
    (cur :: onScrollTrace c vh cur evs =
      if c.pixmaps.isEmpty then [cur]
      else (evs.map (activePage c vh)).destutter' (· ≠ ·) cur) ∧
    List.Chain' (· ≠ ·) (cur :: onScrollTrace c vh cur evs) ∧
    (∀ v, (onScroll c vh cur v).2 = none ↔
      (c.pixmaps.isEmpty = true ∨ activePage c vh v = cur)) := by
  have hmain : cur :: onScrollTrace c vh cur evs =
      if c.pixmaps.isEmpty then [cur]
      else (evs.map (activePage c vh)).destutter' (· ≠ ·) cur := by
    cases hemp : c.pixmaps.isEmpty with
    | true =>
        have htr : ∀ vs cur', onScrollTrace c vh cur' vs = [] := by
          intro vs
          induction vs with
          | nil => intro cur'; rfl
          | cons v vs ih =>
              intro cur'
              have h1 : onScroll c vh cur' v = (cur', none) := by
                simp [onScroll, hemp]
              simp only [onScrollTrace, h1]
              exact ih cur'
        simp [htr]
    | false => simp [hemp, onScrollTrace_destutter c vh hemp evs cur]
  refine ⟨hmain, ?_, ?_⟩
  · rw [hmain]
    cases hemp : c.pixmaps.isEmpty with
    | true => simp
    | false =>
        exact List.destutter'_is_chain' (evs.map (activePage c vh)) (· ≠ ·) cur
  · intro v
    constructor
    · intro h
      by_cases hemp : c.pixmaps.isEmpty
      · exact Or.inl hemp
      · right
        by_contra hne2
        simp [onScroll, hemp, hne2] at h
    · intro h
      rcases h with h | h
      · simp [onScroll, h]
      · simp [onScroll, h]

/-- C8: counterexample to the selection-rectangle invariant.  After a
left-button press at canvas pixel `(0, 0)` followed by a mouse move to
`(50, 40)`, a drag is in progress (`_sel_origin` is set), yet
`selection_rect()` returns `None`: PyQt maps `QPoint.isNull()` to Python
falsiness, so the origin `QPoint(0, 0)` fails the
`if self._sel_origin and self._sel_current:` truthiness test.  The same
drag started one pixel to the right yields the normalized rectangle, as
the invariant demands for every drag. -/
theorem claim_C8_zero_origin_drag :
    ((PageCanvas.init.mousePress ⟨0, 0⟩).mouseMove ⟨50, 40⟩).sel_origin =
        some ⟨0, 0⟩ ∧
    ((PageCanvas.init.mousePress ⟨0, 0⟩).mouseMove ⟨50, 40⟩).sel_current =
        some ⟨50, 40⟩ ∧
    ((PageCanvas.init.mousePress ⟨0, 0⟩).mouseMove ⟨50, 40⟩).selection_rect =
        none ∧
    ((PageCanvas.init.mousePress ⟨1, 0⟩).mouseMove ⟨50, 40⟩).selection_rect =
      some ((QRect.fromPoints ⟨1, 0⟩ ⟨50, 40⟩).normalized) := by
  decide

/-! ## The copy loop stops at the first page with non-empty text -/

theorem copyLoop_spec (c : PageCanvas) (scale : ℚ)
    (getText : Nat → FitzRect → String) (sel : QRect) (cb : String) :
    ∀ l : List Nat,
      copyLoop c scale getText sel cb l =
        match l.find? (succeedsAt c scale getText sel) with
        | some j => (extractedAt c scale getText sel j,
            (l.takeWhile (fun i => !succeedsAt c scale getText sel i)).filter
              (eligible c sel) ++ [j])
        | none => (cb, l.filter (eligible c sel)) := by
  intro l
  induction l with
  | nil => rfl
  | cons i rest ih =>
      by_cases helig : eligible c sel i = true
      · have hempty : ((sel.intersected (c.page_rect i)).isEmpty) = false := by
          simpa [eligible] using helig
        by_cases htext : extractedAt c scale getText sel i = ""
        · have hsucc : succeedsAt c scale getText sel i = false := by
            simp [succeedsAt, htext]
          have hcl : copyLoop c scale getText sel cb (i :: rest) =
              ((copyLoop c scale getText sel cb rest).1,
                i :: (copyLoop c scale getText sel cb rest).2) := by
            simp only [copyLoop, hempty, Bool.false_eq_true, if_false, htext,
              ne_eq, not_true_eq_false]
          rw [hcl, ih]
          cases hfind : rest.find? (succeedsAt c scale getText sel) with
          | none => simp [hfind, hsucc, helig]
          | some j => simp [hfind, hsucc, helig]
        · have hsucc : succeedsAt c scale getText sel i = true := by
            simp [succeedsAt, helig, htext]
          have hcl : copyLoop c scale getText sel cb (i :: rest) =
              (extractedAt c scale getText sel i, [i]) := by
            simp only [copyLoop, hempty, Bool.false_eq_true, if_false, ne_eq,
              htext, not_false_eq_true, if_true]
          rw [hcl]
          simp [hsucc]
      · have helig' : eligible c sel i = false := by
          simpa using helig
        have hempty : ((sel.intersected (c.page_rect i)).isEmpty) = true := by
          simpa [eligible] using helig'
        have hsucc : succeedsAt c scale getText sel i = false := by
          simp [succeedsAt, helig']
        have hcl : copyLoop c scale getText sel cb (i :: rest) =
            copyLoop c scale getText sel cb rest := by
          simp only [copyLoop, hempty, if_true]
        rw [hcl, ih]
        cases hfind : rest.find? (succeedsAt c scale getText sel) with
        | none => simp [hfind, hsucc, helig']
        | some j => simp [hfind, hsucc, helig']

theorem find?_takeWhile_range' (p : Nat → Bool) :
    ∀ (n s j : Nat), (List.range' s n).find? p = some j →
      (List.range' s n).takeWhile (fun i => !p i) = List.range' s (j - s) := by
  intro n
  induction n with
  | zero => intro s j h; simp at h
  | succ n ih =>
      intro s j h
      rw [List.range'_succ] at h ⊢
      by_cases hp : p s = true
      · rw [List.find?_cons_of_pos _ hp] at h
        injection h with hj
        subst hj
        rw [List.takeWhile_cons_of_neg (by simp [hp])]
        simp
      · have hp' : p s = false := by simpa using hp
        rw [List.find?_cons_of_neg _ (by simp [hp'])] at h
        have hmem := List.mem_of_find?_eq_some h
        have hs : s + 1 ≤ j := by
          have := List.mem_range'_1.mp hmem
          omega
        rw [List.takeWhile_cons_of_pos (by simp [hp'])]
        rw [ih (s + 1) j h]
        have hj : j - s = (j - (s + 1)) + 1 := by omega
        rw [hj, List.range'_succ]

/-- C9: with a document loaded and a selection of at least 4×4 pixels,
`_try_copy_selection` scans pages in index order; `get_text` is invoked
exactly on the pages whose `page_rect` intersects the selection up to (and
including) the first page whose stripped extraction is non-empty — the
clipboard receives that page's text and no later page is consulted; when
no page yields text the clipboard keeps its old contents after all
intersecting pages were tried.  Each extraction uses the clip obtained by
intersecting the selection with the page rect, shifting by the page rect's
origin, and dividing by the render scale (`clipOf`). -/
theorem claim_C9_copy_first_hit (docLoaded : Bool) (c : PageCanvas)
    (scale : ℚ) (getText : Nat → FitzRect → String) (cb : String) (sel : QRect)
    (hdoc : docLoaded = true) (hsel : c.selection_rect = some sel)
    (hw : 4 ≤ sel.width) (hh : 4 ≤ sel.height) :
    (try_copy_selection docLoaded c scale getText cb).1 =
      (match (List.range c.pixmaps.length).find?
          (succeedsAt c scale getText sel) with
       | some j => extractedAt c scale getText sel j
       | none => cb) ∧
    (try_copy_selection docLoaded c scale getText cb).2 =
      (match (List.range c.pixmaps.length).find?
          (succeedsAt c scale getText sel) with
       | some j => (List.range (j + 1)).filter (eligible c sel)
       | none => (List.range c.pixmaps.length).filter (eligible c sel)) := by
  subst hdoc
  have hguard : (decide (sel.width < 4) || decide (sel.height < 4)) = false := by
    simp only [Bool.or_eq_false_iff, decide_eq_false_iff_not, not_lt]
    exact ⟨hw, hh⟩
  have htc : try_copy_selection true c scale getText cb =
      copyLoop c scale getText sel cb (List.range c.pixmaps.length) := by
    simp [try_copy_selection, hsel, hguard]
  rw [htc, copyLoop_spec]
  have hrange : List.range c.pixmaps.length =
      List.range' 0 c.pixmaps.length := List.range_eq_range' c.pixmaps.length
  cases hfind : (List.range c.pixmaps.length).find?
      (succeedsAt c scale getText sel) with
  | none => simp [hfind]
  | some j =>
      have hsuccj : succeedsAt c scale getText sel j = true :=
        List.find?_some hfind
      have heligj : eligible c sel j = true := by
        have h := hsuccj
        simp only [succeedsAt, Bool.and_eq_true] at h
        exact h.1
      have htw := find?_takeWhile_range' (succeedsAt c scale getText sel)
        c.pixmaps.length 0 j (by rw [← hrange]; exact hfind)
      refine ⟨by simp [hfind], ?_⟩
      simp only [hfind]
      rw [hrange, htw, Nat.sub_zero, ← List.range_eq_range', List.range_succ,
        List.filter_append]
      simp [heligj]

/-- Witness for C9: two pages `[(400, 600), (500, 600)]`, a selection from
`(20, 20)` to `(200, 900)` (which intersects both pages), scale `1` and an
extraction collaborator answering `" hello "` on page 0 and `"world"`
elsewhere: the clipboard receives the stripped `"hello"` from page 0 only,
and only page 0 is consulted. -/
theorem claim_C9_witness :
    (try_copy_selection true
        { PageCanvas.init.set_pixmaps [⟨400, 600⟩, ⟨500, 600⟩] with
            sel_origin := some ⟨20, 20⟩, sel_current := some ⟨200, 900⟩ }
        1 (fun i _ => if i == 0 then " hello " else "world") "old").1 =
      (match (List.range ({ PageCanvas.init.set_pixmaps
              [⟨400, 600⟩, ⟨500, 600⟩] with
            sel_origin := some ⟨20, 20⟩,
            sel_current := some ⟨200, 900⟩ } : PageCanvas).pixmaps.length).find?
          (succeedsAt
            { PageCanvas.init.set_pixmaps [⟨400, 600⟩, ⟨500, 600⟩] with
                sel_origin := some ⟨20, 20⟩, sel_current := some ⟨200, 900⟩ }
            1 (fun i _ => if i == 0 then " hello " else "world")
            ⟨20, 20, 200, 900⟩) with
       | some j => extractedAt
            { PageCanvas.init.set_pixmaps [⟨400, 600⟩, ⟨500, 600⟩] with
                sel_origin := some ⟨20, 20⟩, sel_current := some ⟨200, 900⟩ }
            1 (fun i _ => if i == 0 then " hello " else "world")
            ⟨20, 20, 200, 900⟩ j
       | none => "old") ∧
    (try_copy_selection true
        { PageCanvas.init.set_pixmaps [⟨400, 600⟩, ⟨500, 600⟩] with
            sel_origin := some ⟨20, 20⟩, sel_current := some ⟨200, 900⟩ }
        1 (fun i _ => if i == 0 then " hello " else "world") "old" =
      ("hello", [0])) := by
  have h := claim_C9_copy_first_hit true
    { PageCanvas.init.set_pixmaps [⟨400, 600⟩, ⟨500, 600⟩] with
        sel_origin := some ⟨20, 20⟩, sel_current := some ⟨200, 900⟩ }
    1 (fun i _ => if i == 0 then " hello " else "world") "old"
    ⟨20, 20, 200, 900⟩ rfl (by decide) (by decide) (by decide)
  exact ⟨h.1, by decide⟩

/-- C10: when no document is loaded, or there is no selection rectangle, or
the selection is narrower or shorter than 4 pixels, `_try_copy_selection`
returns immediately: the clipboard is unchanged and no `get_text`
extraction is performed. -/
theorem claim_C10_guard_noop (docLoaded : Bool) (c : PageCanvas) (scale : ℚ)
    (getText : Nat → FitzRect → String) (cb : String)
    (h : docLoaded = false ∨ c.selection_rect = none ∨
      ∃ sel, c.selection_rect = some sel ∧
        (sel.width < 4 ∨ sel.height < 4)) :
    try_copy_selection docLoaded c scale getText cb = (cb, []) := by
  rcases h with h | h | ⟨sel, hsel, hwh⟩
  · subst h; rfl
  · cases docLoaded with
    | false => rfl
    | true => simp [try_copy_selection, h]
  · cases docLoaded with
    | false => rfl
    | true =>
        have hguard : (decide (sel.width < 4) || decide (sel.height < 4)) = true := by
          rcases hwh with h4 | h4 <;> simp [h4]
        simp [try_copy_selection, hsel, hguard]

/-- Witness for C10: no document loaded — the clipboard keeps `"keep"` and
no extraction happens (and likewise for a tiny 2×2 selection drag). -/
theorem claim_C10_witness :
    try_copy_selection false PageCanvas.init 1 (fun _ _ => "x") "keep" =
        ("keep", []) ∧
    try_copy_selection true
        ((PageCanvas.init.mousePress ⟨8, 8⟩).mouseMove ⟨9, 9⟩) 1
        (fun _ _ => "x") "keep" = ("keep", []) := by
  constructor
  · exact claim_C10_guard_noop false PageCanvas.init 1 (fun _ _ => "x") "keep"
      (Or.inl rfl)
  · exact claim_C10_guard_noop true
      ((PageCanvas.init.mousePress ⟨8, 8⟩).mouseMove ⟨9, 9⟩) 1
      (fun _ _ => "x") "keep"
      (Or.inr (Or.inr ⟨⟨8, 8, 9, 9⟩, by decide, by decide⟩))
